import Mathlib

/-!
Verification of the plex-directplay-convert media conversion tool.

This file gives a shallow embedding, in Lean 4, of the core components of the
tool — the language normalizer and stream selector (`lib/language_utils.py`),
the compatibility classifier (`lib/media_analyzer.py`), the command builder
(`lib/ffmpeg_builder.py` and `lib/gpu_utils.py`), the subprocess runner
(`lib/ffmpeg_runner.py`), the per-file orchestrator (`lib/processor.py`) and
the CSV cache updater (`lib/cache_manager.py`) — together with theorems that
settle the specification claims about those components.

Modelling conventions:
* Python dicts produced by `discover_media` become the `MediaInfo` record; the
  fields `audio_codecs`, `audio_channels`, `audio_languages` and `has_audio`
  are the derived values `discover_media` computes from the probed audio
  stream list, so they are definitions over `MediaInfo.audio_streams`.
* Python `str.lower()` is modelled by `pyLower`, ASCII lowercasing (the only
  inputs are codec and language tags, which are ASCII).
* Python's stable `list.sort(key=...)` is modelled by `List.mergeSort` (a
  stable sort) on the same key.
* The filesystem is a set of file paths (`FS`); subprocess execution and the
  interruption flag are explicit parameters of the `run` model.
-/

namespace DirectPlay

/-- Models Python `str.lower()` on a single character (ASCII range), exactly
as `Char.toLower` does: codepoints 65..90 are shifted by 32. -/
def pyLowerChar (c : Char) : Char := Char.toLower c

/-- Models Python `str.lower()` for the ASCII tags this program handles. -/
def pyLower (s : String) : String := String.mk (s.data.map pyLowerChar)

/-- `LANGUAGE_MAP` from `lib/language_utils.py`: maps language code variants
to standardized two-letter codes. -/
def LANGUAGE_MAP : List (String × String) :=
  [("de", "de"), ("deu", "de"), ("ger", "de"), ("german", "de"), ("deutsch", "de"),
   ("en", "en"), ("eng", "en"), ("english", "en"),
   ("jp", "jp"), ("ja", "jp"), ("jpn", "jp"), ("japanese", "jp"),
   ("fr", "fr"), ("fra", "fr"), ("fre", "fr"), ("french", "fr"),
   ("es", "es"), ("esp", "es"), ("spa", "es"), ("spanish", "es"),
   ("it", "it"), ("ita", "it"), ("italian", "it"),
   ("unknown", "unknown"), ("und", "unknown"), ("", "unknown")]

/-- The `Action` enum from `lib/language_utils.py` (constructor names keep the
source spelling, including the `TRANCODE` typos). -/
inductive Action where
  | SKIP
  | REMUX_AUDIO
  | TRANCODE_VIDEO
  | TRANCODE_ALL
  | CONTAINER_REMUX
deriving DecidableEq, Repr

/-- `normalize_language` from `lib/language_utils.py`. `none` models Python
`None`; Python falsiness of `None` and `""` is the first branch. -/
def normalize_language (lang_code : Option String) : String :=
  match lang_code with
  | none => "unknown"
  | some s =>
    if s = "" then "unknown"
    else
      match LANGUAGE_MAP.lookup (pyLower s) with
      | some v => v
      | none => pyLower s

/-- One probed ffprobe stream, restricted to the fields the core reads:
`codec_name`, `channels`, and `tags.language` (with `''` for a missing tag,
as `stream.get('tags', {}).get('language', '')` yields). -/
structure ProbeStream where
  codec_name : String
  channels : Nat
  language : String
deriving DecidableEq, Repr

/-- The normalized language of a stream, as computed at each use site by
`normalize_language(stream.get('tags', {}).get('language', ''))`. -/
def stream_lang (s : ProbeStream) : String := normalize_language (some s.language)

/-- The `sort_key` closure inside `filter_and_sort_streams`: index of the
stream's language in `sort_languages`, or `len(sort_languages)` when absent
(`list.index` raising `ValueError`). -/
def sort_key (sort_languages : List String) (item : Nat × ProbeStream × String) : Nat :=
  match List.indexOf? item.2.2 sort_languages with
  | some i => i
  | none => sort_languages.length

/-- `filter_and_sort_streams` from `lib/language_utils.py`. The `languages`
argument is accepted but unused, exactly as in the source. Python's stable
in-place `list.sort(key=sort_key)` is modelled by `List.mergeSort` on the
comparison `sort_key a ≤ sort_key b`. -/
def filter_and_sort_streams (streams : List ProbeStream) (languages : List String)
    (keep_languages : List String) (sort_languages : List String) :
    List (Nat × ProbeStream × String) :=
  if streams.isEmpty then []
  else
    let filtered_streams :=
      if !keep_languages.isEmpty then
        streams.enum.filterMap (fun p =>
          let lang := stream_lang p.2
          if lang ∈ keep_languages ∨ lang = "unknown" then some (p.1, p.2, lang) else none)
      else
        streams.enum.map (fun p => (p.1, p.2, stream_lang p.2))
    if !sort_languages.isEmpty then
      filtered_streams.mergeSort
        (fun a b => decide (sort_key sort_languages a ≤ sort_key sort_languages b))
    else filtered_streams

/-- Concatenation of the key-value buckets of `l` in key order: all elements
with key `0` first (in original order), then key `1`, and so on below `n`.
This is the reference description of a stable sort by a bounded `Nat` key. -/
def bucketsBy {α : Type} (key : α → Nat) (n : Nat) (l : List α) : List α :=
  (List.range n).flatMap (fun k => l.filter (fun x => key x == k))

/-- The Stream Selector as the specification words it: keep exactly the
streams whose normalized language is in `keepLanguages ∪ {"unknown"}` (all
streams when `keepLanguages` is empty), then stable-sort the retained streams
by the position of their language in `sortLanguages`, languages absent from
the list ordering after all listed ones, original order preserved among ties
(expressed by `bucketsBy`); no sorting when `sortLanguages` is empty. -/
def selectSpec (streams : List ProbeStream) (keep_languages sort_languages : List String) :
    List (Nat × ProbeStream × String) :=
  let decorated := streams.enum.map (fun p => (p.1, p.2, stream_lang p.2))
  let kept :=
    if keep_languages.isEmpty then decorated
    else decorated.filter (fun item => decide (item.2.2 ∈ keep_languages ∨ item.2.2 = "unknown"))
  if sort_languages.isEmpty then kept
  else bucketsBy (sort_key sort_languages) (sort_languages.length + 1) kept

/-- The media descriptor produced by `discover_media` in
`lib/media_analyzer.py`, restricted to the fields the classifier, builder and
orchestrator read. The list-valued and boolean audio fields of the Python
dict are the derived definitions below. -/
structure MediaInfo where
  video_codec : Option String
  audio_streams : List ProbeStream
  container : String
  has_video : Bool
  is_hdr : Bool
deriving DecidableEq, Repr

/-- `audio_codecs = [s.get('codec_name') for s in a]` in `discover_media`. -/
def audio_codecs (info : MediaInfo) : List String :=
  info.audio_streams.map (fun s => s.codec_name)

/-- `audio_channels = [int(s.get('channels') or 0) for s in a]`. -/
def audio_channels (info : MediaInfo) : List Nat :=
  info.audio_streams.map (fun s => s.channels)

/-- The per-stream normalized audio languages computed in `discover_media`. -/
def audio_languages (info : MediaInfo) : List String :=
  info.audio_streams.map stream_lang

/-- `has_audio = len(a) > 0` in `discover_media`. -/
def has_audio (info : MediaInfo) : Bool := !info.audio_streams.isEmpty

/-- `needs_processing` from `lib/media_analyzer.py`: the five-way decision.
The truthiness test `info['audio_codecs']` is the `isEmpty` conjunct. -/
def needs_processing (info : MediaInfo) : Action :=
  let container_ok := info.container == "mp4"
  let video_ok := (pyLower (info.video_codec.getD "") == "h264") && !info.is_hdr
  let audio_ok := has_audio info && !(audio_codecs info).isEmpty
      && (audio_codecs info).all (fun c => c == "aac")
      && (audio_channels info).all (fun ch => ch == 2)
  if container_ok && video_ok && audio_ok then Action.SKIP
  else if !container_ok && video_ok && audio_ok then Action.CONTAINER_REMUX
  else if container_ok && video_ok && !audio_ok then Action.REMUX_AUDIO
  else if container_ok && audio_ok && !video_ok then Action.TRANCODE_VIDEO
  else Action.TRANCODE_ALL

/-- `containerOK` as the claim states it. -/
def container_ok_spec (info : MediaInfo) : Prop := info.container = "mp4"

/-- `videoOK` as the claim states it: video codec equals `h264`
case-insensitively and the content is not HDR. -/
def video_ok_spec (info : MediaInfo) : Prop :=
  pyLower (info.video_codec.getD "") = "h264" ∧ info.is_hdr = false

/-- `audioOK` as the claim states it: audio present, every audio codec `aac`,
every channel count `2`. -/
def audio_ok_spec (info : MediaInfo) : Prop :=
  has_audio info = true ∧ (∀ c ∈ audio_codecs info, c = "aac") ∧
    (∀ ch ∈ audio_channels info, ch = 2)

instance (info : MediaInfo) : Decidable (container_ok_spec info) := by
  unfold container_ok_spec; infer_instance

instance (info : MediaInfo) : Decidable (video_ok_spec info) := by
  unfold video_ok_spec; infer_instance

instance (info : MediaInfo) : Decidable (audio_ok_spec info) := by
  unfold audio_ok_spec; infer_instance

/-- The five-row decision table of the claim, first match wins. -/
def classifySpec (info : MediaInfo) : Action :=
  if container_ok_spec info ∧ video_ok_spec info ∧ audio_ok_spec info then Action.SKIP
  else if ¬ container_ok_spec info ∧ video_ok_spec info ∧ audio_ok_spec info then
    Action.CONTAINER_REMUX
  else if container_ok_spec info ∧ video_ok_spec info ∧ ¬ audio_ok_spec info then
    Action.REMUX_AUDIO
  else if container_ok_spec info ∧ ¬ video_ok_spec info ∧ audio_ok_spec info then
    Action.TRANCODE_VIDEO
  else Action.TRANCODE_ALL

/-- The GPU capability record built by `detect_gpu_acceleration` in
`lib/gpu_utils.py` (`platform` is `None` or a platform string). -/
structure GpuInfo where
  available : Bool
  encoder : Option String
  decoder : Option String
  platform : Option String
deriving DecidableEq, Repr

/-- The `nvenc_presets` dict in `get_gpu_encoder_params`. -/
def nvenc_presets : List (String × String) :=
  [("ultrafast", "p1"), ("superfast", "p2"), ("veryfast", "p3"),
   ("faster", "p4"), ("fast", "p5"), ("medium", "p6"),
   ("slow", "p7"), ("slower", "p7"), ("veryslow", "p7")]

/-- `get_gpu_encoder_params` from `lib/gpu_utils.py`. `crf` is a Python int,
so the quality arithmetic is over `Int`. -/
def get_gpu_encoder_params (gpu_info : GpuInfo) (crf : Int) (preset : String) : List String :=
  if !gpu_info.available then []
  else if gpu_info.platform == some "metal" then
    let quality : Int := max 0 (min 100 (100 - crf * 2))
    ["-c:v", "h264_videotoolbox", "-q:v", toString quality, "-realtime", "0"]
  else if gpu_info.platform == some "nvidia" then
    let nvenc_preset := (nvenc_presets.lookup preset).getD "p6"
    ["-c:v", "h264_nvenc", "-preset", nvenc_preset, "-cq", toString crf, "-rc", "constqp"]
  else if gpu_info.platform == some "intel" then
    ["-c:v", "h264_qsv", "-preset", preset, "-global_quality", toString crf]
  else []

/-- Python `use_gpu and gpu_info and gpu_info['available']`. -/
def gpuUsable (use_gpu : Bool) (gpu_info : Option GpuInfo) : Bool :=
  use_gpu && (match gpu_info with | some g => g.available | none => false)

/-- Python `use_gpu and gpu_info and gpu_info['platform'] == 'metal'`. -/
def gpuMetal (use_gpu : Bool) (gpu_info : Option GpuInfo) : Bool :=
  use_gpu && (match gpu_info with | some g => g.platform == some "metal" | none => false)

/-- The software HDR→SDR tone-mapping filter arguments plus BT.709 tags. -/
def sw_tonemap_args : List String :=
  ["-vf",
   "zscale=t=linear:npl=100,format=gbrpf32le,zscale=p=bt709,tonemap=tonemap=hable:desat=0,zscale=t=bt709:m=bt709:r=tv,format=yuv420p",
   "-color_primaries", "bt709", "-color_trc", "bt709", "-colorspace", "bt709"]

/-- The metal-path HDR handling: BT.709 color tags only, no filter graph. -/
def metal_tonemap_args : List String :=
  ["-color_primaries", "bt709", "-color_trc", "bt709", "-colorspace", "bt709"]

/-- The CPU encoder arguments `['-c:v','libx264','-preset',preset,'-crf',str(crf)]`. -/
def cpu_encoder_args (crf : Int) (preset : String) : List String :=
  ["-c:v", "libx264", "-preset", preset, "-crf", toString crf]

/-- The fixed global prefix `base` of every built command. -/
def ffmpeg_base (inp : String) : List String :=
  ["ffmpeg", "-y", "-hide_banner", "-loglevel", "warning", "-progress", "pipe:2", "-i", inp]

/-- The stream-mapping arguments of `build_ffmpeg_cmd`: always video stream 0,
then the selector-filtered audio streams (one `-map 0:a:<orig index>` each),
falling back to the optional first audio stream when the selection is empty
or no descriptor is given. -/
def build_map_args (info : Option MediaInfo) (keep_languages sort_languages : List String) :
    List String :=
  ["-map", "0:v:0"] ++
    (match info with
     | some i =>
       let audio_filtered := filter_and_sort_streams i.audio_streams (audio_languages i)
           keep_languages sort_languages
       if !audio_filtered.isEmpty then
         audio_filtered.flatMap (fun item => ["-map", "0:a:" ++ toString item.1])
       else ["-map", "0:a:0?"]
     | none => ["-map", "0:a:0?"])

/-- The video-encoder choice of the transcoding branches: GPU parameters when
GPU use is requested and available, the CPU x264 parameters otherwise. -/
def video_encoder_args (crf : Int) (preset : String) (gpu_info : Option GpuInfo)
    (use_gpu : Bool) : List String :=
  if gpuUsable use_gpu gpu_info then
    get_gpu_encoder_params (gpu_info.getD ⟨false, none, none, none⟩) crf preset
  else cpu_encoder_args crf preset

/-- The HDR→SDR handling of the transcoding branches: nothing for SDR input,
BT.709 tags only on the metal path, the software tone-map chain otherwise. -/
def hdr_args (is_hdr : Bool) (gpu_info : Option GpuInfo) (use_gpu : Bool) : List String :=
  if is_hdr then
    (if gpuMetal use_gpu gpu_info then metal_tonemap_args else sw_tonemap_args)
  else []

/-- `build_ffmpeg_cmd` from `lib/ffmpeg_builder.py`. Returns `none` for the
Python `None` (Skip). `info = none` models passing `info=None`. -/
def build_ffmpeg_cmd (inp out : String) (mode : Action) (crf : Int) (preset : String)
    (is_hdr : Bool) (info : Option MediaInfo) (keep_languages sort_languages : List String)
    (gpu_info : Option GpuInfo) (use_gpu : Bool) : Option (List String) :=
  let base := ffmpeg_base inp
  if mode = Action.SKIP then none
  else
    let map_args := build_map_args info keep_languages sort_languages
    if mode = Action.CONTAINER_REMUX then
      some (base ++ map_args ++ ["-c:v", "copy", "-c:a", "copy"] ++
        ["-movflags", "+faststart", out])
    else if mode = Action.REMUX_AUDIO then
      some (base ++ map_args ++ ["-c:v", "copy", "-c:a", "aac", "-ac", "2", "-b:a", "192k"] ++
        ["-movflags", "+faststart", out])
    else if mode = Action.TRANCODE_VIDEO then
      some (base ++ map_args ++ ["-c:a", "copy"] ++
        video_encoder_args crf preset gpu_info use_gpu ++
        hdr_args is_hdr gpu_info use_gpu ++ ["-movflags", "+faststart", out])
    else
      some (base ++ map_args ++ ["-c:a", "aac", "-ac", "2", "-b:a", "192k"] ++
        video_encoder_args crf preset gpu_info use_gpu ++
        hdr_args is_hdr gpu_info use_gpu ++ ["-movflags", "+faststart", out])

/-- The observable outcome of one subprocess execution: exit code, captured
stdout, and stderr lines (the runner reads stderr line by line). -/
structure SubprocessRun where
  returncode : Int
  stdout : String
  stderrLines : List String
deriving DecidableEq, Repr

/-- `run` from `lib/ffmpeg_runner.py`, as a function of the process-wide
`interrupted` flag at entry, the outcome the subprocess would produce, and
whether an interruption arrives during the progress-read loop. The second
component of the result is the list of subprocess launches performed, so
"no subprocess is spawned" is observable. -/
def run (interrupted : Bool) (cmd : List String) (show_progress : Bool)
    (proc : SubprocessRun) (interrupt_during : Bool) :
    (Int × String × String) × List (List String) :=
  if interrupted then ((130, "", "Process interrupted"), [])
  else if !show_progress then
    ((proc.returncode, proc.stdout, String.intercalate "\n" proc.stderrLines), [cmd])
  else if interrupt_during then
    ((130, proc.stdout, String.intercalate "\n" proc.stderrLines), [cmd])
  else
    ((proc.returncode, proc.stdout, String.intercalate "\n" proc.stderrLines), [cmd])

/-- The filesystem as the set of existing file paths. -/
structure FS where
  files : List String
deriving DecidableEq, Repr

/-- `path.exists()`. -/
def FS.check (fs : FS) (p : String) : Bool := fs.files.contains p

/-- `path.unlink()` (total in the model; the orchestrator only unlinks paths
it has checked, and wraps cleanup unlinks in `try`). -/
def FS.unlink (fs : FS) (p : String) : FS := ⟨fs.files.filter (fun q => q ≠ p)⟩

/-- Creation of a file at `p` (by the encode subprocess or by `rename`). -/
def FS.touch (fs : FS) (p : String) : FS := ⟨p :: fs.files⟩

/-- `src.rename(dst)`: the file disappears from `src` and appears at `dst`. -/
def FS.rename (fs : FS) (p q : String) : FS := (fs.unlink p).touch q

/-- Index of the last occurrence of `c` in `s`, like Python `str.rfind`
(`none` for Python's `-1`). -/
def rfind (s : String) (c : Char) : Option Nat :=
  match s.data.reverse.findIdx? (fun d => d = c) with
  | some j => some (s.length - 1 - j)
  | none => none

/-- The final path component, i.e. the part after the last `/` (paths are
taken pre-normalized, as after `Path.resolve()`). -/
def baseName (p : String) : String :=
  match rfind p '/' with
  | some i => p.drop (i + 1)
  | none => p

/-- `Path.stem` of CPython's pathlib: the final component without its last
suffix, where a suffix needs a dot that is neither the first nor the last
character of the name. -/
def stem (p : String) : String :=
  let b := baseName p
  match rfind b '.' with
  | some i => if 0 < i ∧ i < b.length - 1 then b.take i else b
  | none => b

/-- `(dst_dir / name).resolve()` with `dst_dir` already absolute and
normalized. -/
def pathJoin (dir name : String) : String := dir ++ "/" ++ name

/-- The result of `ask_user_confirmation` in `lib/processor.py`. -/
inductive UserChoice where
  | yes
  | no
  | all
  | quit
deriving DecidableEq, Repr

/-- The environment of one `process_file` call: the probed media info, the
option arguments, and the oracles for the external world (subprocess outcome,
interruption flags, whether the encode wrote its output file, and whether the
cache update raises). -/
structure ProcEnv where
  info : MediaInfo
  crf : Int
  preset : String
  dry_run : Bool
  interactive : Bool
  auto_yes : Bool
  keep_languages : List String
  sort_languages : List String
  gpu_info : Option GpuInfo
  use_gpu : Bool
  action_filter : Option Action
  delete_original : Bool
  cache_path : Option String
  user_choice : UserChoice
  interrupted0 : Bool
  proc : SubprocessRun
  interrupt_during : Bool
  proc_creates_out : Bool
  cache_fails : Bool
deriving DecidableEq, Repr

/-- The encode-and-finalize phase of `process_file` (everything after the
interactive confirmation): dry-run exit, existing-output check, command
build, the `run` call, cleanup of the partial `.convert` file on interrupt or
failure, the unconditional `src.unlink()` plus rename on success (with its
`try`/`except` restore branch), and the cache update, which is not guarded
and therefore propagates its exception (`Except.error`). -/
def processEncode (src dst_dir : String) (env : ProcEnv) (auto_yes : Bool)
    (out_path final_path : String) (mode : Action) (fs : FS) :
    Except String (String × Bool × FS) :=
  if env.dry_run then Except.ok ("processed", auto_yes, fs)
  else if fs.check final_path then Except.ok ("skipped", auto_yes, fs)
  else
    match build_ffmpeg_cmd src out_path mode env.crf env.preset env.info.is_hdr
        (some env.info) env.keep_languages env.sort_languages env.gpu_info env.use_gpu with
    | none => Except.ok ("error", auto_yes, fs)
    | some cmd =>
      if cmd.isEmpty then Except.ok ("error", auto_yes, fs)
      else
        let r := run env.interrupted0 cmd true env.proc env.interrupt_during
        let ret := r.1.1
        let fs1 := if env.proc_creates_out then fs.touch out_path else fs
        if ret = 130 then
          Except.ok ("interrupted", auto_yes,
            if fs1.check out_path then fs1.unlink out_path else fs1)
        else if ret ≠ 0 then
          Except.ok ("error", auto_yes,
            if fs1.check out_path then fs1.unlink out_path else fs1)
        else
          if !(fs1.check src) then
            Except.ok ("error", auto_yes,
              if fs1.check out_path then fs1.unlink out_path else fs1)
          else
            let fs2 := fs1.unlink src
            if !(fs2.check out_path) then Except.ok ("error", auto_yes, fs2)
            else
              let fs3 := fs2.rename out_path final_path
              match env.cache_path with
              | some _ =>
                if env.cache_fails then Except.error "CacheUpdateFailure"
                else Except.ok ("processed", auto_yes, fs3)
              | none => Except.ok ("processed", auto_yes, fs3)

/-- `process_file` from `lib/processor.py`. The result is the returned pair
`(result, auto_yes)` together with the final filesystem; `Except.error`
models an uncaught Python exception escaping the call. -/
def process_file (src dst_dir : String) (env : ProcEnv) (fs : FS) :
    Except String (String × Bool × FS) :=
  if !env.info.has_video then Except.ok ("skipped", env.auto_yes, fs)
  else
    let out_path := pathJoin dst_dir (stem src ++ ".mp4.convert")
    let final_path := pathJoin dst_dir (stem src ++ ".mp4")
    let mode := needs_processing env.info
    if (match env.action_filter with | some f => mode != f | none => false) then
      Except.ok ("filtered", env.auto_yes, fs)
    else if mode = Action.SKIP then Except.ok ("skipped", env.auto_yes, fs)
    else if env.interactive && !env.auto_yes then
      match env.user_choice with
      | UserChoice.quit => Except.ok ("quit", false, fs)
      | UserChoice.no => Except.ok ("skipped", env.auto_yes, fs)
      | UserChoice.all => processEncode src dst_dir env true out_path final_path mode fs
      | UserChoice.yes => processEncode src dst_dir env env.auto_yes out_path final_path mode fs
    else processEncode src dst_dir env env.auto_yes out_path final_path mode fs

/-- One parsed row of the analysis CSV cache: the keyed `file_path`, the two
fields `update_cache_entry` writes, and the remaining columns as opaque
key-value pairs that the updater passes through. -/
structure CacheRow where
  file_path : String
  processed : Bool
  processing_date : String
  fields : List (String × String)
deriving DecidableEq, Repr

/-- The update loop of `update_cache_entry`: walk the rows, rewrite the
`processed` and `processing_date` fields of the first row whose `file_path`
matches, stop at the first match (`break`), and report whether a row was
updated. -/
def updateRows (rows : List CacheRow) (fp : String) (p : Bool) (d : String) :
    List CacheRow × Bool :=
  match rows with
  | [] => ([], false)
  | r :: rs =>
    if r.file_path = fp then
      ({ r with processed := p, processing_date := d } :: rs, true)
    else
      let rest := updateRows rs fp p d
      (r :: rest.1, rest.2)

/-- `update_cache_entry` from `lib/cache_manager.py` at the parsed-row level:
`none` models an absent cache file (early return, nothing written); for a
present cache the rows are read, at most the first matching row is updated,
and the file is rewritten only when a row was updated. The `Bool` result
records whether `write_analysis_csv` was called. `d` is the effective
processing date (the given one or `datetime.now()`). -/
def update_cache_entry (cache : Option (List CacheRow)) (fp : String) (p : Bool) (d : String) :
    Option (List CacheRow) × Bool :=
  match cache with
  | none => (none, false)
  | some rows =>
    let u := updateRows rows fp p d
    if u.2 then (some u.1, true) else (some rows, false)

/-- A fully compatible audio stream (AAC stereo, German). -/
def aacStereoDe : ProbeStream := { codec_name := "aac", channels := 2, language := "deu" }

/-- An incompatible audio stream (AC-3, six channels, English). -/
def ac3SixEn : ProbeStream := { codec_name := "ac3", channels := 6, language := "eng" }

/-- An MKV file with H.264 SDR video and AAC stereo audio: classified
`CONTAINER_REMUX`. -/
def infoMkvCompatible : MediaInfo :=
  { video_codec := some "h264", audio_streams := [aacStereoDe],
    container := "mkv", has_video := true, is_hdr := false }

/-- An MP4 file with H.264 SDR video and AC-3 5.1 audio: classified
`REMUX_AUDIO`. -/
def infoMp4Ac3 : MediaInfo :=
  { video_codec := some "h264", audio_streams := [ac3SixEn],
    container := "mp4", has_video := true, is_hdr := false }

/-- A processing environment on the happy path: succeeding subprocess, no
interruption, non-interactive, no dry-run, no filter, no cache, and
original-deletion NOT requested. -/
def envC2 : ProcEnv :=
  { info := infoMkvCompatible, crf := 22, preset := "medium", dry_run := false,
    interactive := false, auto_yes := false, keep_languages := [], sort_languages := [],
    gpu_info := none, use_gpu := false, action_filter := none, delete_original := false,
    cache_path := none, user_choice := UserChoice.yes, interrupted0 := false,
    proc := { returncode := 0, stdout := "", stderrLines := [] },
    interrupt_during := false, proc_creates_out := true, cache_fails := false }

/-- A processing environment whose resolved final output equals the resolved
source (MP4 processed in place into its own directory) with original-deletion
requested. -/
def envC3 : ProcEnv :=
  { envC2 with info := infoMp4Ac3, delete_original := true }

/-- A happy-path environment with a cache file configured whose update
raises. -/
def envC4 : ProcEnv :=
  { envC2 with cache_path := some "/cache/analysis.csv", cache_fails := true }

/-- A two-row cache for the `update_cache_entry` witness. -/
def cacheRowA : CacheRow :=
  { file_path := "/in/a.mkv", processed := false, processing_date := "",
    fields := [("container", "MKV")] }

/-- Second cache row. -/
def cacheRowB : CacheRow :=
  { file_path := "/in/b.mkv", processed := false, processing_date := "",
    fields := [("container", "MKV")] }

end DirectPlay

namespace DirectPlay

/-! ### Helper lemmas -/

theorem toNat_ofNat_of_valid {n : Nat} (h : n.isValidChar) : (Char.ofNat n).toNat = n := by
  rw [Char.ofNat, dif_pos h]
  rfl

theorem pyLowerChar_idem (c : Char) : pyLowerChar (pyLowerChar c) = pyLowerChar c := by
  unfold pyLowerChar
  by_cases h : c.toNat ≥ 65 ∧ c.toNat ≤ 90
  · have h1 : c.toLower = Char.ofNat (c.toNat + 32) := by rw [Char.toLower, if_pos h]
    have hv : Nat.isValidChar (c.toNat + 32) := Or.inl (by omega)
    have ht : (Char.ofNat (c.toNat + 32)).toNat = c.toNat + 32 := toNat_ofNat_of_valid hv
    rw [h1, Char.toLower, ht, if_neg (by omega)]
  · have h1 : c.toLower = c := by rw [Char.toLower, if_neg h]
    rw [h1, h1]

theorem pyLower_idem (s : String) : pyLower (pyLower s) = pyLower s := by
  unfold pyLower
  have : (s.data.map pyLowerChar).map pyLowerChar = s.data.map pyLowerChar := by
    rw [List.map_map]
    apply List.map_congr_left
    intro c _
    exact pyLowerChar_idem c

  rw [this]

theorem pyLower_length (s : String) : (pyLower s).length = s.length := by
  unfold pyLower
  show (s.data.map pyLowerChar).length = s.data.length
  simp

theorem pyLower_ne_empty {s : String} (h : s ≠ "") : pyLower s ≠ "" := by
  intro hc
  apply h
  have h1 := pyLower_length s
  rw [hc] at h1
  have h0 : s.length = 0 := h1.symm
  cases s with
  | mk data =>
    cases data with
    | nil => rfl
    | cons c cs => exact absurd h0 (Nat.succ_ne_zero cs.length)

theorem lookup_mem_values {m : List (String × String)} {k v : String}
    (h : m.lookup k = some v) : ∃ p ∈ m, p.2 = v := by
  induction m with
  | nil => simp [List.lookup] at h
  | cons q m ih =>
    obtain ⟨qk, qv⟩ := q
    rw [List.lookup] at h
    by_cases hk : (k == qk) = true
    · rw [hk] at h
      simp at h
      exact ⟨(qk, qv), by simp, h⟩
    · rw [Bool.not_eq_true] at hk
      rw [hk] at h
      obtain ⟨p, hp, hv⟩ := ih h
      exact ⟨p, by simp [hp], hv⟩

theorem normalize_fixed_of_map_value {v : String}
    (h : ∃ p ∈ LANGUAGE_MAP, p.2 = v) : normalize_language (some v) = v := by
  obtain ⟨p, hp, hv⟩ := h
  subst hv
  revert hp
  have : ∀ p ∈ LANGUAGE_MAP, normalize_language (some p.2) = p.2 := by decide
  exact this p

theorem normalize_language_fixed (x : Option String) :
    normalize_language (some (normalize_language x)) = normalize_language x := by
  match x with
  | none => decide
  | some s =>
    by_cases hs : s = ""
    · subst hs; decide
    · cases hmap : LANGUAGE_MAP.lookup (pyLower s) with
      | some v =>
        have hv : normalize_language (some s) = v := by
          rw [normalize_language, if_neg hs, hmap]
        rw [hv]
        exact normalize_fixed_of_map_value (lookup_mem_values hmap)
      | none =>
        have hv : normalize_language (some s) = pyLower s := by
          rw [normalize_language, if_neg hs, hmap]
        rw [hv, normalize_language, if_neg (pyLower_ne_empty hs), pyLower_idem, hmap]

theorem bucketsBy_nil {α : Type} (key : α → Nat) (n : Nat) : bucketsBy key n [] = [] := by
  simp [bucketsBy]

theorem append_eq_append_split {α : Type} {p : α → Prop} : ∀ {xs ys xs' ys' : List α},
    xs ++ ys = xs' ++ ys' → (∀ x ∈ xs, p x) → (∀ y ∈ ys, ¬ p y) →
    (∀ x ∈ xs', p x) → (∀ y ∈ ys', ¬ p y) → xs = xs' ∧ ys = ys'
  | [], ys, [], ys', h, _, _, _, _ => ⟨rfl, h⟩
  | [], ys, a :: xs', ys', h, _, h2, h3, _ => by
    simp only [List.nil_append, List.cons_append] at h
    subst h
    exact absurd (h3 a (by simp)) (h2 a (by simp))
  | a :: xs, ys, [], ys', h, h1, _, _, h4 => by
    simp only [List.nil_append, List.cons_append] at h
    exact absurd (h1 a (by simp)) (h4 a (by rw [← h]; simp))
  | a :: xs, ys, a' :: xs', ys', h, h1, h2, h3, h4 => by
    simp only [List.cons_append, List.cons.injEq] at h
    obtain ⟨rfl, htl⟩ := h
    have hrec := append_eq_append_split htl (fun x hx => h1 x (by simp [hx]))
      h2 (fun x hx => h3 x (by simp [hx])) h4
    exact ⟨by rw [hrec.1], hrec.2⟩

/-- A stable sort by a `Nat` key bounded by `n` is exactly the concatenation
of the key buckets in key order. -/
theorem mergeSort_eq_bucketsBy {α : Type} (key : α → Nat) (n : Nat) :
    ∀ (l : List α), (∀ x ∈ l, key x < n) →
    l.mergeSort (fun a b => decide (key a ≤ key b)) = bucketsBy key n l := by
  have htrans : ∀ (a b c : α), (fun a b => decide (key a ≤ key b)) a b = true →
      (fun a b => decide (key a ≤ key b)) b c = true →
      (fun a b => decide (key a ≤ key b)) a c = true := by
    intro a b c hab hbc; simp at hab hbc ⊢; omega
  have htotal : ∀ (a b : α), ((fun a b => decide (key a ≤ key b)) a b
      || (fun a b => decide (key a ≤ key b)) b a) = true := by
    intro a b; simp; omega
  intro l
  induction l with
  | nil => intro _; simp [bucketsBy]
  | cons a t ih =>
    intro hbound
    have ha : key a < n := hbound a (by simp)
    have ht : ∀ x ∈ t, key x < n := fun x hx => hbound x (by simp [hx])
    obtain ⟨l₁, l₂, hms, hms', hl₁⟩ := List.mergeSort_cons htrans htotal a t
    have hrange : List.range n = List.range' 0 (key a) ++ List.range' (key a) (n - key a) := by
      rw [List.range_eq_range']
      have h1 := List.range'_append 0 (key a) (n - key a) 1
      simp only [Nat.one_mul, Nat.zero_add] at h1
      rw [h1]
      congr 1
      omega
    have hP : ∀ (u : List α), bucketsBy key n u =
        (List.range' 0 (key a)).flatMap (fun k => u.filter (fun x => key x == k)) ++
        (List.range' (key a) (n - key a)).flatMap (fun k => u.filter (fun x => key x == k)) := by
      intro u
      rw [bucketsBy, hrange, List.flatMap_append]
    have hsplit2 : List.range' (key a) (n - key a) =
        key a :: List.range' (key a + 1) (n - key a - 1) := by
      have h2 : n - key a = (n - key a - 1) + 1 := by omega
      conv_lhs => rw [h2]
      rw [List.range'_succ]
    have hfilter_ne : ∀ k, k ≠ key a →
        (a :: t).filter (fun x => key x == k) = t.filter (fun x => key x == k) := by
      intro k hk
      rw [List.filter_cons]
      have hne : (key a == k) = false := by
        simp only [beq_eq_false_iff_ne, ne_eq]
        omega
      simp [hne]
    have hcons : bucketsBy key n (a :: t) =
        ((List.range' 0 (key a)).flatMap (fun k => t.filter (fun x => key x == k))) ++
        a :: ((List.range' (key a) (n - key a)).flatMap (fun k => t.filter (fun x => key x == k))) := by
      rw [hP]
      congr 1
      · apply List.flatMap_congr
        intro k hk
        apply hfilter_ne
        rw [List.mem_range'] at hk
        omega
      · rw [hsplit2]
        simp only [List.flatMap_cons]
        rw [List.filter_cons]
        have h1 : (key a == key a) = true := by simp
        simp only [h1, if_pos]
        have h2 : (List.range' (key a + 1) (n - key a - 1)).flatMap
            (fun k => (a :: t).filter (fun x => key x == k)) =
            (List.range' (key a + 1) (n - key a - 1)).flatMap
            (fun k => t.filter (fun x => key x == k)) := by
          apply List.flatMap_congr
          intro k hk
          apply hfilter_ne
          rw [List.mem_range'] at hk
          omega
        rw [h2]
        simp [List.cons_append]
    have hbt := ih ht
    rw [hP t] at hbt
    have hsorted := List.sorted_mergeSort htrans htotal (a :: t)
    rw [hms] at hsorted
    have hl₂ : ∀ b ∈ l₂, key a ≤ key b := by
      rw [List.pairwise_append] at hsorted
      have hpc := hsorted.2.1
      rw [List.pairwise_cons] at hpc
      intro b hb
      have := hpc.1 b hb
      simpa using this
    have hl₁' : ∀ b ∈ l₁, key b < key a := by
      intro b hb
      have := hl₁ b hb
      simp at this
      omega
    have hPmem : ∀ x ∈ (List.range' 0 (key a)).flatMap
        (fun k => t.filter (fun x => key x == k)), key x < key a := by
      intro x hx
      rw [List.mem_flatMap] at hx
      obtain ⟨k, hk, hxk⟩ := hx
      rw [List.mem_filter] at hxk
      have : key x = k := by simpa using hxk.2
      rw [List.mem_range'] at hk
      omega
    have hSmem : ∀ x ∈ (List.range' (key a) (n - key a)).flatMap
        (fun k => t.filter (fun x => key x == k)), ¬ key x < key a := by
      intro x hx
      rw [List.mem_flatMap] at hx
      obtain ⟨k, hk, hxk⟩ := hx
      rw [List.mem_filter] at hxk
      have : key x = k := by simpa using hxk.2
      rw [List.mem_range'] at hk
      omega
    have heq : l₁ ++ l₂ =
        ((List.range' 0 (key a)).flatMap (fun k => t.filter (fun x => key x == k))) ++
        ((List.range' (key a) (n - key a)).flatMap (fun k => t.filter (fun x => key x == k))) := by
      rw [← hms', hbt]
    have hid := append_eq_append_split (p := fun x => key x < key a) heq hl₁'
      (fun y hy => by have := hl₂ y hy; omega) hPmem hSmem
    rw [hms, hcons, hid.1, hid.2]

theorem sort_key_lt (sl : List String) (item : Nat × ProbeStream × String) :
    sort_key sl item < sl.length + 1 := by
  unfold sort_key
  cases h : List.indexOf? item.2.2 sl with
  | none =>
    show sl.length < sl.length + 1
    omega
  | some i =>
    show i < sl.length + 1
    unfold List.indexOf? at h
    have := (List.findIdx?_eq_some_iff_findIdx_eq.mp h).1
    omega

theorem filterMap_keep_eq_filter_map (l : List (Nat × ProbeStream)) (keep : List String) :
    l.filterMap (fun p =>
      let lang := stream_lang p.2
      if lang ∈ keep ∨ lang = "unknown" then some (p.1, p.2, lang) else none) =
    (l.map (fun p => (p.1, p.2, stream_lang p.2))).filter
      (fun item => decide (item.2.2 ∈ keep ∨ item.2.2 = "unknown")) := by
  induction l with
  | nil => rfl
  | cons p l ih =>
    rw [List.filterMap_cons, List.map_cons, List.filter_cons]
    by_cases h : stream_lang p.2 ∈ keep ∨ stream_lang p.2 = "unknown"
    · simp [h, ih]
    · simp [h, ih]

/-- The Stream Selector of the source equals the specification's reference
selector on every input. -/
theorem filter_sort_eq_selectSpec (streams : List ProbeStream)
    (languages keep_languages sort_languages : List String) :
    filter_and_sort_streams streams languages keep_languages sort_languages =
      selectSpec streams keep_languages sort_languages := by
  unfold filter_and_sort_streams selectSpec
  cases streams with
  | nil =>
    simp only [List.isEmpty_nil, if_pos, List.enum_nil, List.map_nil, List.filterMap_nil]
    cases keep_languages <;> cases sort_languages <;> simp [bucketsBy_nil]
  | cons s rest =>
    simp only [List.isEmpty_cons, Bool.false_eq_true, if_false]
    have hkept : (if !keep_languages.isEmpty then
        (s :: rest).enum.filterMap (fun p =>
          let lang := stream_lang p.2
          if lang ∈ keep_languages ∨ lang = "unknown" then some (p.1, p.2, lang) else none)
      else (s :: rest).enum.map (fun p => (p.1, p.2, stream_lang p.2))) =
        (if keep_languages.isEmpty then
          (s :: rest).enum.map (fun p => (p.1, p.2, stream_lang p.2))
        else ((s :: rest).enum.map (fun p => (p.1, p.2, stream_lang p.2))).filter
          (fun item => decide (item.2.2 ∈ keep_languages ∨ item.2.2 = "unknown"))) := by
      cases keep_languages with
      | nil => rfl
      | cons k ks =>
        simp only [List.isEmpty_cons, Bool.not_false, if_pos, Bool.false_eq_true, if_false]
        exact filterMap_keep_eq_filter_map _ _
    rw [hkept]
    cases sort_languages with
    | nil => rfl
    | cons q qs =>
      simp only [List.isEmpty_cons, Bool.not_false, if_pos, Bool.false_eq_true, if_false]
      exact mergeSort_eq_bucketsBy (sort_key (q :: qs)) ((q :: qs).length + 1) _
        (fun x _ => sort_key_lt (q :: qs) x)

theorem container_bool_eq_decide (info : MediaInfo) :
    (info.container == "mp4") = decide (container_ok_spec info) := by
  unfold container_ok_spec
  by_cases h : info.container = "mp4"
  · rw [decide_eq_true h]
    simp [h]
  · rw [decide_eq_false h]
    simp [h]

theorem video_bool_eq_decide (info : MediaInfo) :
    ((pyLower (info.video_codec.getD "") == "h264") && !info.is_hdr) =
      decide (video_ok_spec info) := by
  unfold video_ok_spec
  by_cases h1 : pyLower (info.video_codec.getD "") = "h264" <;>
    by_cases h2 : info.is_hdr <;> simp [h1, h2]

theorem audio_bool_eq_decide (info : MediaInfo) :
    (has_audio info && !(audio_codecs info).isEmpty
      && (audio_codecs info).all (fun c => c == "aac")
      && (audio_channels info).all (fun ch => ch == 2)) =
      decide (audio_ok_spec info) := by
  have hiff : (has_audio info && !(audio_codecs info).isEmpty
      && (audio_codecs info).all (fun c => c == "aac")
      && (audio_channels info).all (fun ch => ch == 2)) = true ↔ audio_ok_spec info := by
    unfold audio_ok_spec has_audio audio_codecs audio_channels
    cases info.audio_streams with
    | nil => simp
    | cons s t =>
      simp [List.all_eq_true, and_assoc]
  by_cases h : audio_ok_spec info
  · rw [decide_eq_true h]
    exact hiff.mpr h
  · rw [decide_eq_false h, ← Bool.not_eq_true]
    intro hc
    exact h (hiff.mp hc)

/-- The source classifier agrees with the claim's five-row decision table on
every descriptor. -/
theorem needs_processing_eq_classifySpec (info : MediaInfo) :
    needs_processing info = classifySpec info := by
  simp only [needs_processing, classifySpec]
  rw [container_bool_eq_decide, video_bool_eq_decide, audio_bool_eq_decide]
  by_cases h1 : container_ok_spec info <;> by_cases h2 : video_ok_spec info <;>
    by_cases h3 : audio_ok_spec info <;>
    simp [h1, h2, h3]

theorem mem_bucketsBy {α : Type} {key : α → Nat} {n : Nat} {l : List α} {x : α}
    (h : x ∈ bucketsBy key n l) : x ∈ l := by
  unfold bucketsBy at h
  rw [List.mem_flatMap] at h
  obtain ⟨k, _, hx⟩ := h
  exact (List.mem_filter.mp hx).1

theorem mem_selectSpec_decorated {streams : List ProbeStream} {keep sort : List String}
    {item : Nat × ProbeStream × String} (h : item ∈ selectSpec streams keep sort) :
    item ∈ streams.enum.map (fun p => (p.1, p.2, stream_lang p.2)) := by
  unfold selectSpec at h
  have hkept : item ∈ (if keep.isEmpty then
      streams.enum.map (fun p => (p.1, p.2, stream_lang p.2))
    else (streams.enum.map (fun p => (p.1, p.2, stream_lang p.2))).filter
      (fun it => decide (it.2.2 ∈ keep ∨ it.2.2 = "unknown"))) := by
    by_cases hs : sort.isEmpty
    · rw [if_pos hs] at h
      exact h
    · rw [if_neg hs] at h
      exact mem_bucketsBy h
  by_cases hk : keep.isEmpty
  · rw [if_pos hk] at hkept
    exact hkept
  · rw [if_neg hk] at hkept
    exact (List.mem_filter.mp hkept).1

theorem mem_selectSpec_getElem {streams : List ProbeStream} {keep sort : List String}
    {item : Nat × ProbeStream × String} (h : item ∈ selectSpec streams keep sort) :
    streams[item.1]? = some item.2.1 ∧ item.2.2 = stream_lang item.2.1 := by
  have hdec := mem_selectSpec_decorated h
  rw [List.mem_map] at hdec
  obtain ⟨p, hp, hpe⟩ := hdec
  have hget : streams[p.1]? = some p.2 := by
    rw [← List.mem_enum_iff_getElem?]
    exact hp
  subst hpe
  exact ⟨hget, rfl⟩

theorem pairwise_fst_lt_enumFrom {α : Type} : ∀ (i : Nat) (l : List α),
    List.Pairwise (fun a b : Nat × α => a.1 < b.1) (List.enumFrom i l)
  | _, [] => List.Pairwise.nil
  | i, a :: l => by
    rw [List.enumFrom]
    refine List.Pairwise.cons ?_ (pairwise_fst_lt_enumFrom (i + 1) l)
    intro x hx
    obtain ⟨j, v⟩ := x
    rw [List.mk_mem_enumFrom_iff_le_and_getElem?_sub] at hx
    have : i + 1 ≤ j := hx.1
    show i < j
    omega

theorem pairwise_fst_lt_selectSpec (streams : List ProbeStream) (keep : List String) :
    List.Pairwise (fun a b : Nat × ProbeStream × String => a.1 < b.1)
      (selectSpec streams keep []) := by
  unfold selectSpec
  simp only [List.isEmpty_nil, if_pos]
  have hdec : List.Pairwise (fun a b : Nat × ProbeStream × String => a.1 < b.1)
      (streams.enum.map (fun p => (p.1, p.2, stream_lang p.2))) := by
    rw [List.pairwise_map]
    exact pairwise_fst_lt_enumFrom 0 streams
  by_cases hk : keep.isEmpty
  · rw [if_pos hk]
    exact hdec
  · rw [if_neg hk]
    exact List.Pairwise.sublist (List.filter_sublist _) hdec

theorem build_ffmpeg_cmd_none_iff (inp out : String) (mode : Action) (crf : Int)
    (preset : String) (is_hdr : Bool) (info : Option MediaInfo) (kl sl : List String)
    (g : Option GpuInfo) (ug : Bool) :
    build_ffmpeg_cmd inp out mode crf preset is_hdr info kl sl g ug = none ↔
      mode = Action.SKIP := by
  cases mode <;> simp [build_ffmpeg_cmd]

theorem build_ffmpeg_cmd_movflags (inp out : String) (mode : Action) (crf : Int)
    (preset : String) (is_hdr : Bool) (info : Option MediaInfo) (kl sl : List String)
    (g : Option GpuInfo) (ug : Bool) {cmd : List String}
    (h : build_ffmpeg_cmd inp out mode crf preset is_hdr info kl sl g ug = some cmd) :
    ∃ l1 l2, cmd = l1 ++ "-movflags" :: "+faststart" :: l2 := by
  cases mode with
  | SKIP =>
    have hn : build_ffmpeg_cmd inp out Action.SKIP crf preset is_hdr info kl sl g ug = none := rfl
    rw [hn] at h
    exact absurd h (by simp)
  | CONTAINER_REMUX =>
    have hb : build_ffmpeg_cmd inp out Action.CONTAINER_REMUX crf preset is_hdr info kl sl g ug =
        some (ffmpeg_base inp ++ build_map_args info kl sl ++ ["-c:v", "copy", "-c:a", "copy"] ++
          ["-movflags", "+faststart", out]) := rfl
    rw [hb, Option.some.injEq] at h
    exact ⟨ffmpeg_base inp ++ build_map_args info kl sl ++ ["-c:v", "copy", "-c:a", "copy"],
      [out], h.symm⟩
  | REMUX_AUDIO =>
    have hb : build_ffmpeg_cmd inp out Action.REMUX_AUDIO crf preset is_hdr info kl sl g ug =
        some (ffmpeg_base inp ++ build_map_args info kl sl ++
          ["-c:v", "copy", "-c:a", "aac", "-ac", "2", "-b:a", "192k"] ++
          ["-movflags", "+faststart", out]) := rfl
    rw [hb, Option.some.injEq] at h
    exact ⟨ffmpeg_base inp ++ build_map_args info kl sl ++
      ["-c:v", "copy", "-c:a", "aac", "-ac", "2", "-b:a", "192k"], [out], h.symm⟩
  | TRANCODE_VIDEO =>
    have hb : build_ffmpeg_cmd inp out Action.TRANCODE_VIDEO crf preset is_hdr info kl sl g ug =
        some (ffmpeg_base inp ++ build_map_args info kl sl ++ ["-c:a", "copy"] ++
          video_encoder_args crf preset g ug ++ hdr_args is_hdr g ug ++
          ["-movflags", "+faststart", out]) := rfl
    rw [hb, Option.some.injEq] at h
    exact ⟨ffmpeg_base inp ++ build_map_args info kl sl ++ ["-c:a", "copy"] ++
      video_encoder_args crf preset g ug ++ hdr_args is_hdr g ug, [out], h.symm⟩
  | TRANCODE_ALL =>
    have hb : build_ffmpeg_cmd inp out Action.TRANCODE_ALL crf preset is_hdr info kl sl g ug =
        some (ffmpeg_base inp ++ build_map_args info kl sl ++
          ["-c:a", "aac", "-ac", "2", "-b:a", "192k"] ++
          video_encoder_args crf preset g ug ++ hdr_args is_hdr g ug ++
          ["-movflags", "+faststart", out]) := rfl
    rw [hb, Option.some.injEq] at h
    exact ⟨ffmpeg_base inp ++ build_map_args info kl sl ++
      ["-c:a", "aac", "-ac", "2", "-b:a", "192k"] ++
      video_encoder_args crf preset g ug ++ hdr_args is_hdr g ug, [out], h.symm⟩

theorem build_ffmpeg_cmd_ne_nil (inp out : String) (mode : Action) (crf : Int)
    (preset : String) (is_hdr : Bool) (info : Option MediaInfo) (kl sl : List String)
    (g : Option GpuInfo) (ug : Bool) {cmd : List String}
    (h : build_ffmpeg_cmd inp out mode crf preset is_hdr info kl sl g ug = some cmd) :
    cmd.isEmpty = false := by
  obtain ⟨l1, l2, he⟩ := build_ffmpeg_cmd_movflags inp out mode crf preset is_hdr info kl sl g ug h
  subst he
  cases l1 <;> rfl

theorem contains_filter_ne (l : List String) (p q : String) :
    (l.filter (fun r => decide (r ≠ q))).contains p = (!(p == q) && l.contains p) := by
  induction l with
  | nil => simp
  | cons a l ih =>
    rw [List.filter_cons]
    by_cases ha : a = q
    · subst ha
      rw [if_neg (by simp)]
      rw [ih, List.contains_cons]
      by_cases hp : p = a
      · subst hp
        simp
      · have hpa : (p == a) = false := by simp [hp]
        simp [hpa]
    · rw [if_pos (by simp [ha])]
      rw [List.contains_cons, List.contains_cons, ih]
      by_cases hp : p = a
      · subst hp
        simp [ha]
      · have hpa : (p == a) = false := by simp [hp]
        simp [hpa]

theorem FS.check_touch (fs : FS) (p q : String) :
    (fs.touch q).check p = (p == q || fs.check p) := by
  unfold FS.check FS.touch
  rw [List.contains_cons]

theorem FS.check_unlink (fs : FS) (p q : String) :
    (fs.unlink q).check p = (!(p == q) && fs.check p) := by
  unfold FS.check FS.unlink
  exact contains_filter_ne fs.files p q

/-- When the file has video, no action filter blocks it, the action is not
`SKIP` and the run is non-interactive, `process_file` proceeds to the encode
phase on its computed `.convert` and final paths. -/
theorem process_file_to_encode (src dst_dir : String) (env : ProcEnv) (fs : FS)
    (hv : env.info.has_video = true)
    (hf : env.action_filter = none)
    (hmode : needs_processing env.info ≠ Action.SKIP)
    (hint : env.interactive = false) :
    process_file src dst_dir env fs =
      processEncode src dst_dir env env.auto_yes
        (pathJoin dst_dir (stem src ++ ".mp4.convert"))
        (pathJoin dst_dir (stem src ++ ".mp4"))
        (needs_processing env.info) fs := by
  simp [process_file, hv, hf, hmode, hint]

/-- The encode phase on the happy path: not a dry run, the final output does
not pre-exist, no interruption before or during the run, exit code `0`, the
subprocess wrote the output file, and the source exists (at a path different
from the `.convert` output). The original is unlinked unconditionally and the
`.convert` file renamed onto the final path; then the outcome depends only on
the cache oracle. -/
theorem processEncode_success (src dst_dir out_path final_path : String) (env : ProcEnv)
    (auto_yes : Bool) (mode : Action) (fs : FS)
    (hmode : mode ≠ Action.SKIP)
    (hdry : env.dry_run = false)
    (hfinal : fs.check final_path = false)
    (hint0 : env.interrupted0 = false)
    (hintd : env.interrupt_during = false)
    (hret : env.proc.returncode = 0)
    (hout : env.proc_creates_out = true)
    (hsrc : fs.check src = true)
    (hso : src ≠ out_path) :
    processEncode src dst_dir env auto_yes out_path final_path mode fs =
      (match env.cache_path with
       | some _ =>
         if env.cache_fails then Except.error "CacheUpdateFailure"
         else Except.ok ("processed", auto_yes,
           (((fs.touch out_path).unlink src).unlink out_path).touch final_path)
       | none => Except.ok ("processed", auto_yes,
           (((fs.touch out_path).unlink src).unlink out_path).touch final_path)) := by
  obtain ⟨cmd, hcmd⟩ : ∃ cmd, build_ffmpeg_cmd src out_path mode env.crf env.preset
      env.info.is_hdr (some env.info) env.keep_languages env.sort_languages env.gpu_info
      env.use_gpu = some cmd := by
    cases hb : build_ffmpeg_cmd src out_path mode env.crf env.preset env.info.is_hdr
        (some env.info) env.keep_languages env.sort_languages env.gpu_info env.use_gpu with
    | none =>
      exact absurd ((build_ffmpeg_cmd_none_iff src out_path mode env.crf env.preset
        env.info.is_hdr (some env.info) env.keep_languages env.sort_languages env.gpu_info
        env.use_gpu).mp hb) hmode
    | some c => exact ⟨c, rfl⟩
  have hne := build_ffmpeg_cmd_ne_nil src out_path mode env.crf env.preset env.info.is_hdr
    (some env.info) env.keep_languages env.sort_languages env.gpu_info env.use_gpu hcmd
  have hsone : (src == out_path) = false := by simp [hso]
  have hosrc : (out_path == src) = false := by
    simp only [beq_eq_false_iff_ne, ne_eq]
    exact fun hc => hso hc.symm
  rw [processEncode, hcmd]
  simp only [hdry, hfinal, hne, hint0, hintd, hret, hout, run,
    Bool.false_eq_true, if_false, if_true, Bool.not_true, FS.check_touch, FS.check_unlink,
    hsone, hsrc, hosrc, beq_self_eq_true, Bool.or_true, Bool.true_or, Bool.false_or,
    Bool.and_true, Bool.true_and, Bool.not_false]
  simp [FS.rename]

/-- The whole success path of `process_file`: the result depends only on the
cache oracle, and the filesystem ends with the source deleted (regardless of
`delete_original`) and the final output present. -/
theorem process_file_success_shape (src dst_dir : String) (env : ProcEnv) (fs : FS)
    (hv : env.info.has_video = true)
    (hf : env.action_filter = none)
    (hmode : needs_processing env.info ≠ Action.SKIP)
    (hint : env.interactive = false)
    (hdry : env.dry_run = false)
    (hfinal : fs.check (pathJoin dst_dir (stem src ++ ".mp4")) = false)
    (hint0 : env.interrupted0 = false)
    (hintd : env.interrupt_during = false)
    (hret : env.proc.returncode = 0)
    (hout : env.proc_creates_out = true)
    (hsrc : fs.check src = true)
    (hso : src ≠ pathJoin dst_dir (stem src ++ ".mp4.convert")) :
    process_file src dst_dir env fs =
      (match env.cache_path with
       | some _ =>
         if env.cache_fails then Except.error "CacheUpdateFailure"
         else Except.ok ("processed", env.auto_yes,
           (((fs.touch (pathJoin dst_dir (stem src ++ ".mp4.convert"))).unlink src).unlink
             (pathJoin dst_dir (stem src ++ ".mp4.convert"))).touch
             (pathJoin dst_dir (stem src ++ ".mp4")))
       | none => Except.ok ("processed", env.auto_yes,
           (((fs.touch (pathJoin dst_dir (stem src ++ ".mp4.convert"))).unlink src).unlink
             (pathJoin dst_dir (stem src ++ ".mp4.convert"))).touch
             (pathJoin dst_dir (stem src ++ ".mp4")))) := by
  rw [process_file_to_encode src dst_dir env fs hv hf hmode hint]
  exact processEncode_success src dst_dir _ _ env env.auto_yes _ fs hmode hdry hfinal
    hint0 hintd hret hout hsrc hso

/-- After the success path, the source is gone from the filesystem and the
final output is present. -/
theorem successFS_facts (src dst_dir : String) (fs : FS)
    (hsrc : fs.check src = true)
    (hfinal : fs.check (pathJoin dst_dir (stem src ++ ".mp4")) = false) :
    ((((fs.touch (pathJoin dst_dir (stem src ++ ".mp4.convert"))).unlink src).unlink
      (pathJoin dst_dir (stem src ++ ".mp4.convert"))).touch
      (pathJoin dst_dir (stem src ++ ".mp4"))).check src = false ∧
    ((((fs.touch (pathJoin dst_dir (stem src ++ ".mp4.convert"))).unlink src).unlink
      (pathJoin dst_dir (stem src ++ ".mp4.convert"))).touch
      (pathJoin dst_dir (stem src ++ ".mp4"))).check
      (pathJoin dst_dir (stem src ++ ".mp4")) = true := by
  have hsf : src ≠ pathJoin dst_dir (stem src ++ ".mp4") := by
    intro hc
    rw [← hc] at hfinal
    rw [hsrc] at hfinal
    exact absurd hfinal (by decide)
  have hsf' : (src == pathJoin dst_dir (stem src ++ ".mp4")) = false := by simp [hsf]
  constructor
  · rw [FS.check_touch, FS.check_unlink, FS.check_unlink, hsf']
    simp
  · rw [FS.check_touch]
    simp

theorem countP_zip_same (l : List CacheRow) :
    ((l.zip l).countP (fun pr => pr.1 != pr.2)) = 0 := by
  induction l with
  | nil => rfl
  | cons a l ih =>
    rw [List.zip_cons_cons, List.countP_cons, ih]
    simp

theorem updateRows_forall₂ (fp : String) (p : Bool) (d : String) : ∀ (rows : List CacheRow),
    List.Forall₂ (fun a b : CacheRow => (a.file_path ≠ fp → b = a) ∧
      b.file_path = a.file_path ∧ b.fields = a.fields) rows (updateRows rows fp p d).1
  | [] => List.Forall₂.nil
  | r :: rs => by
    rw [updateRows]
    by_cases h : r.file_path = fp
    · rw [if_pos h]
      refine List.Forall₂.cons ⟨fun hc => absurd h hc, rfl, rfl⟩ ?_
      exact List.forall₂_same.mpr (fun x _ => ⟨fun _ => rfl, rfl, rfl⟩)
    · rw [if_neg h]
      exact List.Forall₂.cons ⟨fun _ => rfl, rfl, rfl⟩ (updateRows_forall₂ fp p d rs)

theorem updateRows_no_match (fp : String) (p : Bool) (d : String) : ∀ (rows : List CacheRow),
    (∀ r ∈ rows, r.file_path ≠ fp) → updateRows rows fp p d = (rows, false)
  | [], _ => rfl
  | r :: rs, h => by
    rw [updateRows, if_neg (h r (by simp))]
    rw [updateRows_no_match fp p d rs (fun x hx => h x (by simp [hx]))]

theorem updateRows_changed_count (fp : String) (p : Bool) (d : String) :
    ∀ (rows : List CacheRow),
    ((rows.zip (updateRows rows fp p d).1).countP (fun pr => pr.1 != pr.2)) ≤ 1
  | [] => by simp [updateRows]
  | r :: rs => by
    rw [updateRows]
    by_cases h : r.file_path = fp
    · rw [if_pos h]
      show (((r :: rs).zip ({ r with processed := p, processing_date := d } :: rs)).countP
        (fun pr => pr.1 != pr.2)) ≤ 1
      rw [List.zip_cons_cons, List.countP_cons, countP_zip_same]
      split <;> omega
    · rw [if_neg h]
      show (((r :: rs).zip (r :: (updateRows rs fp p d).1)).countP
        (fun pr => pr.1 != pr.2)) ≤ 1
      rw [List.zip_cons_cons, List.countP_cons]
      have hrec := updateRows_changed_count fp p d rs
      simpa using hrec

/-! ### Claim theorems -/

/-- C1: the classifier `needs_processing` implements the five-row decision
table: with `containerOK = (container == "mp4")`, `videoOK` = H.264
(case-insensitively) and not HDR, `audioOK` = audio present with every codec
`aac` and every channel count `2`, it returns `SKIP` when all three hold,
`CONTAINER_REMUX` when only `containerOK` fails, `REMUX_AUDIO` when only
`audioOK` fails, `TRANCODE_VIDEO` when only `videoOK` fails, and
`TRANCODE_ALL` in every other case, regardless of container. -/
theorem claim_C1_classifier_table (info : MediaInfo) :
    needs_processing info = classifySpec info :=
  needs_processing_eq_classifySpec info

/-- C3 (amended): when the resolved final output path (`<stem>.mp4` in the
destination directory) equals the resolved source path of an existing file
that reaches the encode stage (video present, no filter, not `SKIP`,
non-interactive, not a dry run), `process_file` returns `skipped` at the
pre-existing-output check — regardless of whether original-deletion is
requested — rather than redirecting to a temporary name and processing. -/
theorem claim_C3_self_output_skips (src dst_dir : String) (env : ProcEnv) (fs : FS)
    (hv : env.info.has_video = true)
    (hf : env.action_filter = none)
    (hmode : needs_processing env.info ≠ Action.SKIP)
    (hint : env.interactive = false)
    (hdry : env.dry_run = false)
    (heq : pathJoin dst_dir (stem src ++ ".mp4") = src)
    (hsrc : fs.check src = true) :
    process_file src dst_dir env fs = Except.ok ("skipped", env.auto_yes, fs) := by
  rw [process_file_to_encode src dst_dir env fs hv hf hmode hint]
  simp [processEncode, hdry, heq, hsrc]

/-- Witness for C3: a concrete MP4 file processed into its own directory with
original-deletion requested is skipped. -/
theorem claim_C3_witness :
    process_file "/media/a.mp4" "/media" envC3 (FS.mk ["/media/a.mp4"]) =
      Except.ok ("skipped", false, FS.mk ["/media/a.mp4"]) :=
  claim_C3_self_output_skips "/media/a.mp4" "/media" envC3 (FS.mk ["/media/a.mp4"])
    rfl rfl (by decide) rfl rfl (by decide) (by decide)

/-- Counterexample for C3 as stated: the resolved final output equals the
resolved source, original-deletion is requested, the file is not classified
`SKIP` (it needs an audio remux) — yet `process_file` returns `skipped`, not
`processed`. -/
theorem claim_C3_counterexample :
    envC3.delete_original = true ∧
    pathJoin "/media" (stem "/media/a.mp4" ++ ".mp4") = "/media/a.mp4" ∧
    needs_processing envC3.info = Action.REMUX_AUDIO ∧
    process_file "/media/a.mp4" "/media" envC3 (FS.mk ["/media/a.mp4"]) =
      Except.ok ("skipped", false, FS.mk ["/media/a.mp4"]) :=
  ⟨rfl, rfl, by decide, rfl⟩

/-- C2 (amended): on every successful encode (non-dry-run, non-interactive,
no filter, final output not pre-existing, subprocess exits `0`),
`process_file` deletes the original source file unconditionally — the
`delete_original` argument is ignored — and returns `processed` with the
final output present. -/
theorem claim_C2_deletes_unconditionally (src dst_dir : String) (env : ProcEnv) (fs : FS)
    (hv : env.info.has_video = true)
    (hf : env.action_filter = none)
    (hmode : needs_processing env.info ≠ Action.SKIP)
    (hint : env.interactive = false)
    (hdry : env.dry_run = false)
    (hfinal : fs.check (pathJoin dst_dir (stem src ++ ".mp4")) = false)
    (hint0 : env.interrupted0 = false)
    (hintd : env.interrupt_during = false)
    (hret : env.proc.returncode = 0)
    (hout : env.proc_creates_out = true)
    (hsrc : fs.check src = true)
    (hso : src ≠ pathJoin dst_dir (stem src ++ ".mp4.convert"))
    (hcache : env.cache_path = none) :
    ∃ fs' : FS,
      process_file src dst_dir env fs = Except.ok ("processed", env.auto_yes, fs') ∧
      fs'.check src = false ∧
      fs'.check (pathJoin dst_dir (stem src ++ ".mp4")) = true := by
  refine ⟨_, ?_, (successFS_facts src dst_dir fs hsrc hfinal).1,
    (successFS_facts src dst_dir fs hsrc hfinal).2⟩
  rw [process_file_success_shape src dst_dir env fs hv hf hmode hint hdry hfinal hint0 hintd
    hret hout hsrc hso, hcache]

/-- Witness for C2 (amended): a concrete run with `delete_original = false`
still ends `processed` with the source deleted. -/
theorem claim_C2_witness :
    ∃ fs' : FS,
      process_file "/in/movie.mkv" "/out" envC2 (FS.mk ["/in/movie.mkv"]) =
        Except.ok ("processed", false, fs') ∧
      fs'.check "/in/movie.mkv" = false ∧
      fs'.check "/out/movie.mp4" = true :=
  claim_C2_deletes_unconditionally "/in/movie.mkv" "/out" envC2 (FS.mk ["/in/movie.mkv"])
    rfl rfl (by decide) rfl rfl (by decide) rfl rfl rfl rfl (by decide) (by decide) rfl

/-- Counterexample for C2 as stated: original-deletion is NOT requested, the
encode completes successfully, `process_file` returns `processed` — and the
source file is gone from the filesystem. -/
theorem claim_C2_counterexample :
    envC2.delete_original = false ∧
    process_file "/in/movie.mkv" "/out" envC2 (FS.mk ["/in/movie.mkv"]) =
      Except.ok ("processed", false, FS.mk ["/out/movie.mp4"]) ∧
    (FS.mk ["/out/movie.mp4"]).check "/in/movie.mkv" = false :=
  ⟨rfl, rfl, by decide⟩

/-- C4 (amended): the `update_cache_entry` call in `process_file` is not
guarded, so on an otherwise successful encode a failure raised while updating
the Batch Cache escapes `process_file` as an exception instead of returning
`processed`. -/
theorem claim_C4_cache_failure_escapes (src dst_dir : String) (env : ProcEnv) (fs : FS)
    (cp : String)
    (hv : env.info.has_video = true)
    (hf : env.action_filter = none)
    (hmode : needs_processing env.info ≠ Action.SKIP)
    (hint : env.interactive = false)
    (hdry : env.dry_run = false)
    (hfinal : fs.check (pathJoin dst_dir (stem src ++ ".mp4")) = false)
    (hint0 : env.interrupted0 = false)
    (hintd : env.interrupt_during = false)
    (hret : env.proc.returncode = 0)
    (hout : env.proc_creates_out = true)
    (hsrc : fs.check src = true)
    (hso : src ≠ pathJoin dst_dir (stem src ++ ".mp4.convert"))
    (hcache : env.cache_path = some cp)
    (hcf : env.cache_fails = true) :
    process_file src dst_dir env fs = Except.error "CacheUpdateFailure" := by
  rw [process_file_success_shape src dst_dir env fs hv hf hmode hint hdry hfinal hint0 hintd
    hret hout hsrc hso, hcache]
  simp [hcf]

/-- Witness for C4 (amended): a concrete successful encode whose cache update
raises ends in the propagated exception. -/
theorem claim_C4_witness :
    process_file "/in/movie.mkv" "/out" envC4 (FS.mk ["/in/movie.mkv"]) =
      Except.error "CacheUpdateFailure" :=
  claim_C4_cache_failure_escapes "/in/movie.mkv" "/out" envC4 (FS.mk ["/in/movie.mkv"])
    "/cache/analysis.csv" rfl rfl (by decide) rfl rfl (by decide) rfl rfl rfl rfl
    (by decide) (by decide) rfl rfl

/-- Counterexample for C4 as stated: the encode subprocess succeeded (exit
code 0) and the rename succeeded, but the failing cache update changes the
outcome from `processed` to a propagated exception. -/
theorem claim_C4_counterexample :
    envC4.proc.returncode = 0 ∧ envC4.cache_fails = true ∧
    process_file "/in/movie.mkv" "/out" envC4 (FS.mk ["/in/movie.mkv"]) =
      Except.error "CacheUpdateFailure" :=
  ⟨rfl, rfl, rfl⟩

/-- C5: if the process-wide interruption flag is already set when `run` is
invoked, it returns the reserved interrupted classification (exit code 130)
immediately, and the list of launched subprocesses is empty. -/
theorem claim_C5_refuses_when_interrupted (cmd : List String) (show_progress : Bool)
    (proc : SubprocessRun) (interrupt_during : Bool) :
    run true cmd show_progress proc interrupt_during = ((130, "", "Process interrupted"), []) :=
  rfl

/-- C6: the Stream Selector equals its reference definition: with a non-empty
`keepLanguages` it retains exactly the streams whose normalized language is
in `keepLanguages ∪ {"unknown"}` (all streams otherwise), then — for a
non-empty `sortLanguages` — stable-sorts by the position of the language in
`sortLanguages` with absent languages after all listed ones and original
order preserved among ties; with an empty `sortLanguages` the original order
is preserved. -/
theorem claim_C6_selector_reference (streams : List ProbeStream)
    (languages keep_languages sort_languages : List String) :
    filter_and_sort_streams streams languages keep_languages sort_languages =
      selectSpec streams keep_languages sort_languages :=
  filter_sort_eq_selectSpec streams languages keep_languages sort_languages

/-- C7: language normalization is idempotent, and both the empty string and
`None` normalize to `"unknown"`. -/
theorem claim_C7_normalize_idempotent :
    (∀ x : Option String,
      normalize_language (some (normalize_language x)) = normalize_language x) ∧
    normalize_language (some "") = "unknown" ∧ normalize_language none = "unknown" :=
  ⟨normalize_language_fixed, by decide, rfl⟩

/-- C8: `build_ffmpeg_cmd` returns `None` exactly for `SKIP`, and every
non-null argument vector it returns — for each of the four other actions and
every combination of the remaining inputs — contains the adjacent flag pair
`-movflags +faststart`. -/
theorem claim_C8_faststart (inp out : String) (mode : Action) (crf : Int) (preset : String)
    (is_hdr : Bool) (info : Option MediaInfo) (kl sl : List String) (g : Option GpuInfo)
    (ug : Bool) :
    (build_ffmpeg_cmd inp out mode crf preset is_hdr info kl sl g ug = none ↔
      mode = Action.SKIP) ∧
    (∀ cmd, build_ffmpeg_cmd inp out mode crf preset is_hdr info kl sl g ug = some cmd →
      ∃ l1 l2, cmd = l1 ++ "-movflags" :: "+faststart" :: l2) :=
  ⟨build_ffmpeg_cmd_none_iff inp out mode crf preset is_hdr info kl sl g ug,
   fun _ h => build_ffmpeg_cmd_movflags inp out mode crf preset is_hdr info kl sl g ug h⟩

/-- Witness for C8: the concrete container-remux command contains the
fast-start pair. -/
theorem claim_C8_witness :
    ∃ l1 l2, (["ffmpeg", "-y", "-hide_banner", "-loglevel", "warning", "-progress", "pipe:2",
      "-i", "in.mkv", "-map", "0:v:0", "-map", "0:a:0?", "-c:v", "copy", "-c:a", "copy",
      "-movflags", "+faststart", "out.mp4"] : List String) =
      l1 ++ "-movflags" :: "+faststart" :: l2 :=
  (claim_C8_faststart "in.mkv" "out.mp4" Action.CONTAINER_REMUX 22 "medium" false none [] []
    none false).2 _ rfl

/-- C10: every triple `(i, stream, lang)` returned by the Stream Selector
satisfies `streams[i] = stream` and `lang = normalize_language` of that
stream's language tag, and with an empty `sortLanguages` the returned indices
are strictly increasing. -/
theorem claim_C10_selector_invariants (streams : List ProbeStream)
    (languages keep_languages sort_languages : List String) :
    (∀ item ∈ filter_and_sort_streams streams languages keep_languages sort_languages,
      streams[item.1]? = some item.2.1 ∧ item.2.2 = stream_lang item.2.1) ∧
    (sort_languages = [] →
      List.Pairwise (fun a b => a.1 < b.1)
        (filter_and_sort_streams streams languages keep_languages sort_languages)) := by
  constructor
  · intro item h
    rw [filter_sort_eq_selectSpec] at h
    exact mem_selectSpec_getElem h
  · intro hs
    subst hs
    rw [filter_sort_eq_selectSpec]
    exact pairwise_fst_lt_selectSpec streams keep_languages

/-- Witness for C10: on a concrete two-stream list with a keep-filter and no
sorting, the returned triple references the first stream, and the index list
is increasing. -/
theorem claim_C10_witness :
    [aacStereoDe, ac3SixEn][(0 : Nat)]? = some aacStereoDe ∧ "de" = stream_lang aacStereoDe :=
  (claim_C10_selector_invariants [aacStereoDe, ac3SixEn] [] ["de"] []).1
    (0, aacStereoDe, "de") (by decide)

/-- C9: `update_cache_entry` modifies at most the single first cache row whose
`file_path` equals the given path; every other row keeps all its field
values, the matching row keeps its `file_path` and pass-through fields (only
`processed` and `processing_date` change), and when no row matches — or the
cache file is absent — nothing is written. -/
theorem claim_C9_cache_frame (fp : String) (p : Bool) (d : String) :
    update_cache_entry none fp p d = (none, false) ∧
    ∀ rows : List CacheRow, ∃ rows' wrote,
      update_cache_entry (some rows) fp p d = (some rows', wrote) ∧
      List.Forall₂ (fun a b : CacheRow => (a.file_path ≠ fp → b = a) ∧
        b.file_path = a.file_path ∧ b.fields = a.fields) rows rows' ∧
      ((rows.zip rows').countP (fun pr => pr.1 != pr.2)) ≤ 1 ∧
      ((∀ r ∈ rows, r.file_path ≠ fp) → rows' = rows ∧ wrote = false) := by
  refine ⟨rfl, fun rows => ?_⟩
  rw [update_cache_entry]
  by_cases hu : (updateRows rows fp p d).2 = true
  · refine ⟨(updateRows rows fp p d).1, true, by rw [if_pos hu], updateRows_forall₂ fp p d rows,
      updateRows_changed_count fp p d rows, fun hnm => ?_⟩
    rw [updateRows_no_match fp p d rows hnm] at hu
    simp at hu
  · refine ⟨rows, false, by rw [if_neg hu], List.forall₂_same.mpr
      (fun x _ => ⟨fun _ => rfl, rfl, rfl⟩), ?_, fun _ => ⟨rfl, rfl⟩⟩
    rw [countP_zip_same]
    omega

/-- Witness for C9: a two-row cache with no matching path is left untouched
and not rewritten. -/
theorem claim_C9_witness :
    update_cache_entry (some [cacheRowA, cacheRowB]) "/nomatch" true "2024-01-01" =
      (some [cacheRowA, cacheRowB], false) := by
  obtain ⟨rows', wrote, heq, _, _, hnm⟩ :=
    (claim_C9_cache_frame "/nomatch" true "2024-01-01").2 [cacheRowA, cacheRowB]
  obtain ⟨h1, h2⟩ := hnm (by decide)
  rw [h1, h2] at heq
  exact heq

end DirectPlay
